import Mathlib

/-!
Verification of the delta-rs core (`src/rust/src/delta.rs`) against its
natural-language specification.  The Rust code is shallowly embedded:
pure functions become Lean functions, the stateful snapshot engine becomes
explicit state passing over a `DeltaTable` handle and a `LogStore` model of
the storage backend, and fallible code returns `Except`.
-/

namespace DeltaRs

/-! ## Action model

The action types live in `action.rs`, which is not part of the sources at
hand; the fields below follow the wire shapes in the spec (section 6) and the
uses in `delta.rs`.  Only the fields the projector and the verified claims
touch are carried.
-/

/-- `add` action payload (wire fields used by the state projector). -/
structure AddAction where
  path : String
  size : Int
  modificationTime : Int
  dataChange : Bool
  deriving Repr, DecidableEq

/-- `remove` action payload. -/
structure RemoveAction where
  path : String
  deletionTimestamp : Int
  dataChange : Bool
  deriving Repr, DecidableEq

/-- `protocol` action payload. -/
structure ProtocolAction where
  minReaderVersion : Int
  minWriterVersion : Int
  deriving Repr, DecidableEq

/-- Encoding format descriptor inside `metaData`. -/
structure Format where
  provider : String
  options : List (String × String)
  deriving Repr, DecidableEq

/-- `metaData` action payload.  Modelled from the spec: `action.rs` is not
under the sources at hand, and the schema is carried as the result of the
`get_schema` parse of the embedded `schemaString` — `none` stands for a
malformed schema string (on which `process_action` fails with the serde
error). -/
structure MetaDataAction where
  id : String
  name : Option String
  description : Option String
  format : Format
  schemaParsed : Option String
  partitionColumns : List String
  configuration : List (String × String)
  createdTime : Int
  deriving Repr, DecidableEq

/-- `txn` action payload. -/
structure TxnAction where
  appId : String
  version : Int
  lastUpdated : Int
  deriving Repr, DecidableEq

/-- The tagged union of log actions: exactly the six tags of `Action` in
`action.rs` / spec section 3.  `commitInfo` carries its opaque JSON as a
string. -/
inductive Action where
  | add (v : AddAction)
  | remove (v : RemoveAction)
  | protocol (v : ProtocolAction)
  | metaData (v : MetaDataAction)
  | txn (v : TxnAction)
  | commitInfo (v : String)
  deriving Repr, DecidableEq

/-- Table metadata as projected into the state (`DeltaTableMetaData`,
delta.rs:161-178).  `schema` holds the parsed schema (opaque here). -/
structure DeltaTableMetaData where
  id : String
  name : Option String
  description : Option String
  format : Format
  schema : String
  partition_columns : List String
  created_time : Int
  configuration : List (String × String)
  deriving Repr, DecidableEq

/-- Overwrite-or-insert for the association list modelling the
`app_transaction_version` hash map.  The Rust `entry(..).or_insert(v) = v`
dance unconditionally stores the new version for the app id. -/
def assocPut (m : List (String × Int)) (k : String) (v : Int) : List (String × Int) :=
  match m with
  | [] => [(k, v)]
  | (k2, v2) :: rest =>
    if k2 = k then (k2, v) :: rest else (k2, v2) :: assocPut rest k v

/-- The projected table state (`DeltaTableState`, delta.rs:257-268).  The
hash map of app transaction versions is modelled as an association list. -/
structure DeltaTableState where
  tombstones : List RemoveAction
  files : List AddAction
  commit_infos : List String
  app_transaction_version : List (String × Int)
  min_reader_version : Int
  min_writer_version : Int
  current_metadata : Option DeltaTableMetaData
  deriving Repr, DecidableEq

/-- `DeltaTableState::default()`: everything empty. -/
def DeltaTableState.empty : DeltaTableState :=
  { tombstones := []
    files := []
    commit_infos := []
    app_transaction_version := []
    min_reader_version := 0
    min_writer_version := 0
    current_metadata := none }

/-- The state projector (`process_action`, delta.rs:1206-1246).  The only
failing path is the serde parse of the metadata schema string (modelled by
`schemaParsed = none`). -/
def process_action (state : DeltaTableState) (action : Action) :
    Except String DeltaTableState :=
  match action with
  | .add v => .ok { state with files := state.files ++ [v] }
  | .remove v =>
      .ok { state with
              files := state.files.filter (fun a => a.path != v.path)
              tombstones := state.tombstones ++ [v] }
  | .protocol v =>
      .ok { state with
              min_reader_version := v.minReaderVersion
              min_writer_version := v.minWriterVersion }
  | .metaData v =>
      match v.schemaParsed with
      | none => .error "invalid schema json"
      | some schema =>
          .ok { state with
                  current_metadata := some
                    { id := v.id
                      name := v.name
                      description := v.description
                      format := v.format
                      schema := schema
                      partition_columns := v.partitionColumns
                      created_time := v.createdTime
                      configuration := v.configuration } }
  | .txn v =>
      .ok { state with
              app_transaction_version :=
                assocPut state.app_transaction_version v.appId v.version }
  | .commitInfo v =>
      .ok { state with commit_infos := state.commit_infos ++ [v] }

/-- Folding a list of actions through the projector, as
`apply_log_from_bufread` (delta.rs:391-401) does for one log entry (the
per-line JSON decoding is outside the fold). -/
def applyActions : DeltaTableState → List Action → Except String DeltaTableState
  | s, [] => .ok s
  | s, a :: rest =>
    match process_action s a with
    | .error e => .error e
    | .ok s2 => applyActions s2 rest

theorem applyActions_append (s : DeltaTableState) (A B : List Action) :
    applyActions s (A ++ B) =
      match applyActions s A with
      | .error e => .error e
      | .ok s2 => applyActions s2 B := by
  induction A generalizing s with
  | nil => rfl
  | cons a rest ih =>
    simp only [List.cons_append, applyActions]
    cases process_action s a with
    | error e => rfl
    | ok s2 => exact ih s2

/-! ## Claim C1: projector action rules and the add/remove law -/

/-- A balanced sequence for a path: `add` then `remove`, repeated `n`
times. -/
def balancedSeq (a : AddAction) (r : RemoveAction) (n : Nat) : List Action :=
  (List.replicate n [Action.add a, Action.remove r]).flatten

theorem balancedSeq_succ (a : AddAction) (r : RemoveAction) (n : Nat) :
    balancedSeq a r (n + 1) = Action.add a :: Action.remove r :: balancedSeq a r n := by
  simp [balancedSeq, List.replicate_succ]

theorem applyActions_balanced (a : AddAction) (r : RemoveAction)
    (hpath : a.path = r.path) (s : DeltaTableState) (n : Nat) (hn : 1 ≤ n) :
    applyActions s (balancedSeq a r n) =
      .ok { s with
              files := s.files.filter (fun f => f.path != r.path)
              tombstones := s.tombstones ++ List.replicate n r } := by
  induction n generalizing s with
  | zero => omega
  | succ m ih =>
    rw [balancedSeq_succ]
    simp only [applyActions, process_action]
    rcases Nat.eq_zero_or_pos m with hm | hm
    · subst hm
      simp [balancedSeq, applyActions, List.filter_append, hpath,
        List.replicate_succ]
    · rw [ih _ hm]
      simp [List.filter_append, hpath, List.filter_filter, List.replicate_succ,
        List.append_assoc]

theorem balancedSeq_getLast (a : AddAction) (r : RemoveAction) (n : Nat)
    (hn : 1 ≤ n) : (balancedSeq a r n).getLast? = some (Action.remove r) := by
  induction n with
  | zero => omega
  | succ m ih =>
    rw [balancedSeq_succ]
    rcases Nat.eq_zero_or_pos m with hm | hm
    · subst hm; rfl
    · rw [List.getLast?_cons, List.getLast?_cons]
      have hne : balancedSeq a r m ≠ [] := by
        cases m with
        | zero => omega
        | succ k => rw [balancedSeq_succ]; simp
      rw [ih hm]
      cases hb : balancedSeq a r m with
      | nil => exact absurd hb hne
      | cons x xs => simp

/-- C1: processing an `add` appends the record to `files`; processing a
`remove` drops every file entry with the remove's path and appends the
record to `tombstones`; and for any path, folding a nonempty balanced
`add`/`remove` sequence from any state leaves the path absent from `files`
iff the last action for the path is a `remove` (always true here), with
`tombstones` extended by every `remove` issued. -/
theorem c1_state_projector_rules :
    (∀ (s : DeltaTableState) (v : AddAction),
      process_action s (.add v) = .ok { s with files := s.files ++ [v] }) ∧
    (∀ (s : DeltaTableState) (v : RemoveAction),
      process_action s (.remove v) =
        .ok { s with
                files := s.files.filter (fun a => a.path != v.path)
                tombstones := s.tombstones ++ [v] }) ∧
    (∀ (s : DeltaTableState) (a : AddAction) (r : RemoveAction) (n : Nat),
      a.path = r.path → 1 ≤ n →
      ∃ s2, applyActions s (balancedSeq a r n) = .ok s2 ∧
        ((∀ f ∈ s2.files, f.path ≠ r.path) ↔
          (balancedSeq a r n).getLast? = some (Action.remove r)) ∧
        s2.tombstones = s.tombstones ++ List.replicate n r) := by
  refine ⟨fun s v => rfl, fun s v => rfl, fun s a r n hpath hn => ?_⟩
  refine ⟨_, applyActions_balanced a r hpath s n hn, ?_, rfl⟩
  rw [balancedSeq_getLast a r n hn]
  constructor
  · intro _; rfl
  · intro _ f hf
    have := List.of_mem_filter hf
    simpa using this

/-- Witness for C1 at a concrete path, one balanced round, from the empty
state. -/
theorem c1_state_projector_rules_witness :
    ({ path := "part-A", size := 1, modificationTime := 0,
       dataChange := true : AddAction }.path =
     { path := "part-A", deletionTimestamp := 5,
       dataChange := true : RemoveAction }.path) ∧ 1 ≤ 1 ∧
    (∃ s2,
      applyActions DeltaTableState.empty
          (balancedSeq
            { path := "part-A", size := 1, modificationTime := 0, dataChange := true }
            { path := "part-A", deletionTimestamp := 5, dataChange := true } 1) =
        .ok s2 ∧
      ((∀ f ∈ s2.files,
          f.path ≠ ({ path := "part-A", deletionTimestamp := 5,
                      dataChange := true : RemoveAction }).path) ↔
        (balancedSeq
            { path := "part-A", size := 1, modificationTime := 0, dataChange := true }
            { path := "part-A", deletionTimestamp := 5, dataChange := true }
            1).getLast? =
          some (Action.remove
            { path := "part-A", deletionTimestamp := 5, dataChange := true })) ∧
      s2.tombstones =
        DeltaTableState.empty.tombstones ++
          List.replicate 1
            { path := "part-A", deletionTimestamp := 5, dataChange := true }) :=
  ⟨rfl, by decide,
    c1_state_projector_rules.2.2 DeltaTableState.empty
      { path := "part-A", size := 1, modificationTime := 0, dataChange := true }
      { path := "part-A", deletionTimestamp := 5, dataChange := true }
      1 rfl (by decide)⟩

/-! ## Claim C9: replay is chunking-independent -/

/-- Folding a chunked action sequence, one chunk (log file or checkpoint
slice) at a time, as the snapshot engine does across log entries. -/
def applyChunks : DeltaTableState → List (List Action) → Except String DeltaTableState
  | s, [] => .ok s
  | s, c :: cs =>
    match applyActions s c with
    | .error e => .error e
    | .ok s2 => applyChunks s2 cs

theorem applyChunks_eq_join (s : DeltaTableState) (chunks : List (List Action)) :
    applyChunks s chunks = applyActions s chunks.flatten := by
  induction chunks generalizing s with
  | nil => rfl
  | cons c cs ih =>
    rw [List.flatten_cons, applyActions_append]
    simp only [applyChunks]
    cases applyActions s c with
    | error e => rfl
    | ok s2 => exact ih s2

/-- C9: replay is chunking-independent — folding the chunks of an action
sequence one by one equals folding the flattened sequence in one pass, so
the final state depends only on the flattened sequence. -/
theorem c9_replay_chunking_independent :
    (∀ (s : DeltaTableState) (chunks : List (List Action)),
      applyChunks s chunks = applyActions s chunks.flatten) ∧
    (∀ (s : DeltaTableState) (chunks1 chunks2 : List (List Action)),
      chunks1.flatten = chunks2.flatten → applyChunks s chunks1 = applyChunks s chunks2) := by
  refine ⟨applyChunks_eq_join, fun s c1 c2 h => ?_⟩
  rw [applyChunks_eq_join, applyChunks_eq_join, h]

/-- Witness for C9: two different chunkings of the same two-action
sequence. -/
theorem c9_replay_chunking_independent_witness :
    ([[Action.commitInfo "a"], [Action.commitInfo "b"]].flatten =
      [[Action.commitInfo "a", Action.commitInfo "b"]].flatten) ∧
    applyChunks DeltaTableState.empty
        [[Action.commitInfo "a"], [Action.commitInfo "b"]] =
      applyChunks DeltaTableState.empty
        [[Action.commitInfo "a", Action.commitInfo "b"]] :=
  ⟨rfl, c9_replay_chunking_independent.2 DeltaTableState.empty _ _ rfl⟩


/-! ## Storage model

`storage.rs` is not among the sources at hand; the backend is modelled from
the spec's storage contract (section 4.1): the log directory holds the
`_last_checkpoint` object, checkpoint data files (represented by their parsed
descriptors, in listing order) and the versioned log entries.  `logs[v]`
holds the decoded actions of log entry `v`; `none` marks an absent entry
(reads of it fail with `NotFound`).  Reads of existing objects are modelled
as infallible; per-line JSON decoding surfaces through `process_action`'s
error path.
-/

/-- Decidable equality for `Except` results, used to evaluate the model on
concrete inputs. -/
instance {e a : Type} [DecidableEq e] [DecidableEq a] : DecidableEq (Except e a) := fun x y =>
  match x, y with
  | .ok v, .ok w =>
    match decEq v w with
    | isTrue h => isTrue (by rw [h])
    | isFalse h => isFalse (fun hc => h (Except.ok.inj hc))
  | .error v, .error w =>
    match decEq v w with
    | isTrue h => isTrue (by rw [h])
    | isFalse h => isFalse (fun hc => h (Except.error.inj hc))
  | .ok _, .error _ => isFalse (fun hc => Except.noConfusion hc)
  | .error _, .ok _ => isFalse (fun hc => Except.noConfusion hc)

/-- Storage errors (the constructors `delta.rs` distinguishes). -/
inductive StorageError where
  | notFound
  | alreadyExists (path : String)
  | other (msg : String)
  deriving Repr, DecidableEq

/-- Checkpoint metadata (`CheckPoint`, delta.rs:34-41). -/
structure CheckPoint where
  version : Int
  size : Int
  parts : Option Nat
  deriving Repr, DecidableEq

/-- `PartialEq for CheckPoint` (delta.rs:43-47): equality by `version`
only. -/
def checkPointEq (a b : CheckPoint) : Bool :=
  a.version == b.version

/-- The derived `PartialEq` on `Option<CheckPoint>` over the version-only
checkpoint equality. -/
def optCheckPointEq : Option CheckPoint → Option CheckPoint → Bool
  | none, none => true
  | some a, some b => checkPointEq a b
  | _, _ => false

/-- `LoadCheckpointError` (delta.rs:229-246). -/
inductive LoadCheckpointError where
  | notFound
  | invalidJson (msg : String)
  | storage (e : StorageError)
  deriving Repr, DecidableEq

/-- `ApplyLogError` (delta.rs:192-216). -/
inductive ApplyLogError where
  | endOfLog
  | invalidJson (msg : String)
  | storage (e : StorageError)
  | io (msg : String)
  deriving Repr, DecidableEq

/-- `From<StorageError> for ApplyLogError` (delta.rs:218-225): `NotFound`
becomes the `EndOfLog` sentinel, everything else is wrapped. -/
def storageToApplyLogError : StorageError → ApplyLogError
  | .notFound => .endOfLog
  | e => .storage e

/-- `From<StorageError> for LoadCheckpointError` (delta.rs:248-255). -/
def storageToLoadCheckpointError : StorageError → LoadCheckpointError
  | .notFound => .notFound
  | e => .storage e

/-- `DeltaTableError` (delta.rs:52-157), restricted to the variants the
embedded operations produce. -/
inductive DeltaTableError where
  | applyLog (e : ApplyLogError)
  | loadCheckpoint (e : LoadCheckpointError)
  | storageError (e : StorageError)
  | invalidJson (msg : String)
  | invalidVersion (v : Int)
  | notATable
  | noMetadata
  | invalidVacuumRetentionPeriod
  deriving Repr, DecidableEq

/-- The storage backend as seen through the log directory. -/
structure LogStore where
  lastCheckpointFile : Except LoadCheckpointError CheckPoint
  checkpointListing : List CheckPoint
  checkpointActions : CheckPoint → List Action
  logs : List (Option (List Action))

/-- Read log entry `v` (the object `version_to_log_path(v)` points at);
`none` is storage `NotFound`. -/
def logGet (stg : LogStore) (v : Int) : Option (List Action) :=
  if 0 ≤ v then stg.logs.getD v.toNat none else none

/-- The in-memory table handle (`DeltaTable`, delta.rs:271-286; the storage
box and the timestamp cache are passed separately / modelled in the
time-travel section). -/
structure DeltaTable where
  version : Int
  table_path : String
  state : DeltaTableState
  last_check_point : Option CheckPoint
  log_path : String
  deriving Repr, DecidableEq

/-- `join_path` of the storage contract, with `/` as separator. -/
def join_path (a b : String) : String :=
  a ++ "/" ++ b

/-- `DeltaTable::new` (delta.rs:823-837). -/
def DeltaTable.new (table_path : String) : DeltaTable :=
  { version := 0
    table_path := table_path
    state := DeltaTableState.empty
    last_check_point := none
    log_path := join_path table_path "_delta_log" }

/-- `version_to_log_path` (delta.rs:289-292): 20-digit zero-padded version
under the log directory. -/
def version_to_log_path (log_path : String) (version : Int) : String :=
  let digits := toString version
  join_path log_path
    (String.mk (List.replicate (20 - digits.length) '0') ++ digits ++ ".json")

/-- `apply_log` (delta.rs:403-409): read one log entry and fold its actions;
a storage `NotFound` maps to `EndOfLog`, a malformed action to
`InvalidJson`. -/
def apply_log (stg : LogStore) (state : DeltaTableState) (version : Int) :
    Except ApplyLogError DeltaTableState :=
  match logGet stg version with
  | none => .error (storageToApplyLogError .notFound)
  | some entry =>
    match applyActions state entry with
    | .error m => .error (.invalidJson m)
    | .ok s2 => .ok s2

/-- `restore_checkpoint` (delta.rs:411-433): reset the state to default and
fold the checkpoint rows. -/
def restore_checkpoint (stg : LogStore) (cp : CheckPoint) :
    Except DeltaTableError DeltaTableState :=
  match applyActions DeltaTableState.empty (stg.checkpointActions cp) with
  | .error m => .error (.invalidJson m)
  | .ok s2 => .ok s2

/-- The loop body of `apply_logs_after_current_version` (delta.rs:520-547),
with explicit fuel.  One success bumps `version`; `EndOfLog` decrements it
and stops (failing with `NotATable` when the decrement reaches `-1`); other
errors abort.  The fuel-exhausted value is never reached from the entry
point below. -/
def applyLogsLoop (stg : LogStore) : Nat → DeltaTable → Except DeltaTableError DeltaTable
  | 0, t => .ok t
  | fuel + 1, t =>
    match apply_log stg t.state t.version with
    | .ok s2 => applyLogsLoop stg fuel { t with version := t.version + 1, state := s2 }
    | .error .endOfLog =>
        if t.version - 1 = -1 then .error .notATable
        else .ok { t with version := t.version - 1 }
    | .error e => .error (.applyLog e)

/-- `apply_logs_after_current_version` (delta.rs:520-547).  The fuel
`logs.length + 2` dominates the number of loop iterations (at most one
success per existing log entry above the current version, plus the final
`EndOfLog` step). -/
def apply_logs_after_current_version (stg : LogStore) (t : DeltaTable) :
    Except DeltaTableError DeltaTable :=
  applyLogsLoop stg (stg.logs.length + 2) t

/-- `load` (delta.rs:476-495): restore the `_last_checkpoint` checkpoint and
continue at `K+1`, or start at version `0` when there is none; then replay
forward. -/
def load (stg : LogStore) (t : DeltaTable) : Except DeltaTableError DeltaTable :=
  match stg.lastCheckpointFile with
  | .ok cp =>
    match restore_checkpoint stg cp with
    | .error e => .error e
    | .ok s2 =>
      apply_logs_after_current_version stg
        { t with last_check_point := some cp, state := s2, version := cp.version + 1 }
  | .error .notFound => apply_logs_after_current_version stg { t with version := 0 }
  | .error e => .error (.loadCheckpoint e)

/-- The checkpoint-probing phase of `update` (delta.rs:498-513): the match
on `get_last_checkpoint` before the forward replay. -/
def updateProbe (stg : LogStore) (t : DeltaTable) : Except DeltaTableError DeltaTable :=
  match stg.lastCheckpointFile with
  | .ok cp =>
    if optCheckPointEq t.last_check_point (some cp) then .ok t
    else
      match restore_checkpoint stg cp with
      | .error e => .error e
      | .ok s2 =>
        .ok { t with last_check_point := some cp, state := s2, version := cp.version + 1 }
  | .error .notFound => .ok { t with version := t.version + 1 }
  | .error e => .error (.loadCheckpoint e)

/-- `update` (delta.rs:498-518): probe the checkpoint, then replay
forward. -/
def update (stg : LogStore) (t : DeltaTable) : Except DeltaTableError DeltaTable :=
  match updateProbe stg t with
  | .error e => .error e
  | .ok t2 => apply_logs_after_current_version stg t2

/-- The listing fold inside `find_latest_check_point_for_version`
(delta.rs:345-386): skip checkpoints newer than the limit, keep the first
one seen with the greatest version. -/
def findLatestCheckPointAux (version : Int) :
    List CheckPoint → Option CheckPoint → Option CheckPoint
  | [], cp => cp
  | c :: rest, cp =>
    if version < c.version then findLatestCheckPointAux version rest cp
    else
      match cp with
      | none => findLatestCheckPointAux version rest (some c)
      | some prev =>
        if prev.version < c.version then findLatestCheckPointAux version rest (some c)
        else findLatestCheckPointAux version rest (some prev)

/-- `find_latest_check_point_for_version` (delta.rs:332-389) over the
checkpoint files present in the log-directory listing. -/
def find_latest_check_point_for_version (stg : LogStore) (version : Int) :
    Option CheckPoint :=
  findLatestCheckPointAux version stg.checkpointListing none

/-- The bounded replay loop of `load_version` (delta.rs:581-584): apply
`next`, `next+1`, … while `next ≤ version`, propagating every error
(including `EndOfLog`) as a `DeltaTableError`. -/
def applyRangeLoop (stg : LogStore) : Nat → Int → DeltaTable → Except DeltaTableError DeltaTable
  | 0, _, t => .ok t
  | fuel + 1, next, t =>
    if next ≤ t.version then
      match apply_log stg t.state next with
      | .error e => .error (.applyLog e)
      | .ok s2 => applyRangeLoop stg fuel (next + 1) { t with state := s2 }
    else .ok t

/-- `load_version` (delta.rs:550-587): verify the log entry for `version`
exists (else `InvalidVersion`), set the handle version, restore the latest
checkpoint at or below it when one exists, and replay the remaining range of
log entries. -/
def load_version (stg : LogStore) (t : DeltaTable) (version : Int) :
    Except DeltaTableError DeltaTable :=
  match logGet stg version with
  | none => .error (.invalidVersion version)
  | some _ =>
    match find_latest_check_point_for_version stg version with
    | some cp =>
      match restore_checkpoint stg cp with
      | .error e => .error e
      | .ok s2 =>
        applyRangeLoop stg ((version - (cp.version + 1)).toNat + 2) (cp.version + 1)
          { t with version := version, state := s2 }
    | none => applyRangeLoop stg (version.toNat + 2) 0 { t with version := version }

/-! ## Replay loops as flat folds -/

/-- The concatenated actions of log entries `lo`, `lo+1`, …, `hi` (an absent
entry contributes nothing; the lemmas below only use this under presence
hypotheses). -/
def logsRange (stg : LogStore) (lo hi : Int) : List Action :=
  ((List.range (hi - lo + 1).toNat).map
    (fun (i : Nat) => (logGet stg (lo + (i : Int))).getD [])).flatten

theorem logsRange_nil (stg : LogStore) (lo hi : Int) (h : hi < lo) :
    logsRange stg lo hi = [] := by
  have h0 : (hi - lo + 1).toNat = 0 := by omega
  rw [logsRange, h0]
  rfl

theorem logsRange_cons (stg : LogStore) (lo hi : Int) (h : lo ≤ hi) :
    logsRange stg lo hi = (logGet stg lo).getD [] ++ logsRange stg (lo + 1) hi := by
  have hn : (hi - lo + 1).toNat = (hi - (lo + 1) + 1).toNat + 1 := by omega
  rw [logsRange, hn, List.range_succ_eq_map]
  simp only [List.map_cons, List.map_map, List.flatten_cons]
  rw [logsRange]
  congr 1
  · norm_num
  · congr 1
    apply List.map_congr_left
    intro i _
    simp only [Function.comp_apply]
    congr 1
    push_cast
    ring_nf


theorem logGet_eq_none_of_length_le (stg : LogStore) (v : Int)
    (h : (stg.logs.length : Int) ≤ v) : logGet stg v = none := by
  unfold logGet
  by_cases h0 : 0 ≤ v
  · rw [if_pos h0]
    exact List.getD_eq_default _ _ (by omega)
  · rw [if_neg h0]

theorem logGet_isSome_bounds (stg : LogStore) (v : Int)
    (h : (logGet stg v).isSome) : 0 ≤ v ∧ v.toNat < stg.logs.length := by
  by_cases h0 : 0 ≤ v
  · refine ⟨h0, ?_⟩
    by_contra hlen
    have hnone : logGet stg v = none :=
      logGet_eq_none_of_length_le stg v (by omega)
    rw [hnone] at h
    simp at h
  · exfalso
    have hnone : logGet stg v = none := by
      unfold logGet
      rw [if_neg h0]
    rw [hnone] at h
    simp at h

theorem applyRangeLoop_eq_fold (stg : LogStore) :
    ∀ (fuel : Nat) (next : Int) (t : DeltaTable),
      (t.version + 1 - next).toNat < fuel →
      (∀ w : Int, next ≤ w → w ≤ t.version → (logGet stg w).isSome) →
      applyRangeLoop stg fuel next t =
        match applyActions t.state (logsRange stg next t.version) with
        | .error m => .error (.applyLog (.invalidJson m))
        | .ok s2 => .ok { t with state := s2 } := by
  intro fuel
  induction fuel with
  | zero => intro next t hf hp; omega
  | succ fuel ih =>
    intro next t hf hp
    by_cases hle : next ≤ t.version
    · have hsome := hp next le_rfl hle
      obtain ⟨e, he⟩ := Option.isSome_iff_exists.mp hsome
      rw [logsRange_cons stg next t.version hle, he]
      simp only [Option.getD_some]
      rw [applyActions_append]
      simp only [applyRangeLoop, if_pos hle, apply_log, he]
      cases hae : applyActions t.state e with
      | error m => rfl
      | ok s2 =>
        dsimp only
        have h1 : (({ t with state := s2 } : DeltaTable).version + 1 - (next + 1)).toNat < fuel := by
          show (t.version + 1 - (next + 1)).toNat < fuel
          omega
        have h2 : ∀ w : Int, next + 1 ≤ w → w ≤ ({ t with state := s2 } : DeltaTable).version →
            (logGet stg w).isSome := by
          intro w hw1 hw2
          exact hp w (by omega) hw2
        rw [ih (next + 1) { t with state := s2 } h1 h2]
    · rw [logsRange_nil stg next t.version (by omega)]
      simp only [applyActions, applyRangeLoop, if_neg hle]

theorem applyLogsLoop_eq_fold (stg : LogStore) :
    ∀ (fuel : Nat) (t : DeltaTable),
      0 ≤ t.version → t.version ≤ (stg.logs.length : Int) →
      (∀ w : Int, t.version ≤ w → w < (stg.logs.length : Int) → (logGet stg w).isSome) →
      stg.logs.length + 1 ≤ fuel + t.version.toNat →
      applyLogsLoop stg fuel t =
        match applyActions t.state (logsRange stg t.version ((stg.logs.length : Int) - 1)) with
        | .error m => .error (.applyLog (.invalidJson m))
        | .ok s2 =>
          if (stg.logs.length : Int) - 1 = -1 then .error .notATable
          else .ok { t with version := (stg.logs.length : Int) - 1, state := s2 } := by
  intro fuel
  induction fuel with
  | zero => intro t h0 hle hp hf; omega
  | succ fuel ih =>
    intro t h0 hle hp hf
    by_cases hlt : t.version < (stg.logs.length : Int)
    · have hsome := hp t.version le_rfl hlt
      obtain ⟨e, he⟩ := Option.isSome_iff_exists.mp hsome
      rw [logsRange_cons stg t.version ((stg.logs.length : Int) - 1) (by omega), he]
      simp only [Option.getD_some]
      rw [applyActions_append]
      simp only [applyLogsLoop, apply_log, he]
      cases hae : applyActions t.state e with
      | error m => rfl
      | ok s2 =>
        dsimp only
        have h1 : 0 ≤ ({ t with version := t.version + 1, state := s2 } : DeltaTable).version := by
          show 0 ≤ t.version + 1
          omega
        have h2 : ({ t with version := t.version + 1, state := s2 } : DeltaTable).version ≤
            (stg.logs.length : Int) := by
          show t.version + 1 ≤ (stg.logs.length : Int)
          omega
        have h3 : ∀ w : Int,
            ({ t with version := t.version + 1, state := s2 } : DeltaTable).version ≤ w →
            w < (stg.logs.length : Int) → (logGet stg w).isSome := by
          intro w hw1 hw2
          have hw3 : t.version + 1 ≤ w := hw1
          exact hp w (by omega) hw2
        have h4 : stg.logs.length + 1 ≤
            fuel + ({ t with version := t.version + 1, state := s2 } : DeltaTable).version.toNat := by
          show stg.logs.length + 1 ≤ fuel + (t.version + 1).toNat
          omega
        rw [ih { t with version := t.version + 1, state := s2 } h1 h2 h3 h4]
    · have hv : t.version = (stg.logs.length : Int) := by omega
      have hnone : logGet stg t.version = none :=
        logGet_eq_none_of_length_le stg t.version (by omega)
      simp only [applyLogsLoop, apply_log, hnone, storageToApplyLogError]
      rw [logsRange_nil stg t.version ((stg.logs.length : Int) - 1) (by omega)]
      simp only [applyActions]
      rw [hv]

/-- Unfolding of the forward replay at a missing log entry: the `EndOfLog`
sentinel decrements the version and stops, failing with `NotATable` when the
decrement reaches `-1`. -/
theorem applyLogsAfter_endOfLog (stg : LogStore) (t : DeltaTable)
    (h : logGet stg t.version = none) :
    apply_logs_after_current_version stg t =
      if t.version - 1 = -1 then .error DeltaTableError.notATable
      else .ok { t with version := t.version - 1 } := by
  unfold apply_logs_after_current_version
  simp only [applyLogsLoop, apply_log, h, storageToApplyLogError]


/-! ## Claim C4: missing log entry, EndOfLog, NotATable -/

/-- C4: during forward replay a missing log file (storage `NotFound`, mapped
to the `EndOfLog` sentinel) decrements `version` and stops the loop, failing
with `NotATable` exactly when the decremented version is `-1`; consequently
`load` of a directory with no log content and no checkpoint fails with
`NotATable`. -/
theorem c4_end_of_log_not_a_table :
    (∀ (e : StorageError), e = .notFound → storageToApplyLogError e = .endOfLog) ∧
    (∀ (stg : LogStore) (t : DeltaTable), logGet stg t.version = none →
      apply_logs_after_current_version stg t =
        if t.version - 1 = -1 then .error DeltaTableError.notATable
        else .ok { t with version := t.version - 1 }) ∧
    (∀ (stg : LogStore) (t : DeltaTable),
      stg.lastCheckpointFile = .error .notFound → stg.logs = [] →
      load stg t = .error DeltaTableError.notATable) := by
  refine ⟨fun e he => by rw [he]; rfl, applyLogsAfter_endOfLog, ?_⟩
  intro stg t hcp hlogs
  unfold load
  rw [hcp]
  have hget : logGet stg ({ t with version := 0 } : DeltaTable).version = none := by
    show logGet stg 0 = none
    unfold logGet
    rw [hlogs]
    rfl
  rw [applyLogsAfter_endOfLog stg { t with version := 0 } hget]
  rfl

/-- Empty storage: no `_delta_log` content at all. -/
def stgEmptyC4 : LogStore :=
  { lastCheckpointFile := .error .notFound
    checkpointListing := []
    checkpointActions := fun _ => []
    logs := [] }

/-- Witness for C4 on a concrete empty directory and a fresh handle. -/
theorem c4_end_of_log_not_a_table_witness :
    ((StorageError.notFound = StorageError.notFound) ∧
      logGet stgEmptyC4 (DeltaTable.new "tbl").version = none ∧
      stgEmptyC4.lastCheckpointFile = .error .notFound ∧ stgEmptyC4.logs = []) ∧
    (storageToApplyLogError .notFound = .endOfLog ∧
      apply_logs_after_current_version stgEmptyC4 (DeltaTable.new "tbl") =
        (if (DeltaTable.new "tbl").version - 1 = -1 then .error DeltaTableError.notATable
         else .ok { DeltaTable.new "tbl" with version := (DeltaTable.new "tbl").version - 1 }) ∧
      load stgEmptyC4 (DeltaTable.new "tbl") = .error DeltaTableError.notATable) :=
  ⟨⟨rfl, rfl, rfl, rfl⟩,
    c4_end_of_log_not_a_table.1 .notFound rfl,
    c4_end_of_log_not_a_table.2.1 stgEmptyC4 (DeltaTable.new "tbl") rfl,
    c4_end_of_log_not_a_table.2.2 stgEmptyC4 (DeltaTable.new "tbl") rfl rfl⟩

/-! ## Claim C6: update's checkpoint probe -/

/-- Checkpoint descriptor at version 0 used by the C6 counterexample. -/
def cpC6 : CheckPoint := { version := 0, size := 0, parts := none }

/-- Add record used by the C6 counterexample. -/
def addC6 : AddAction :=
  { path := "f0", size := 1, modificationTime := 0, dataChange := true }

/-- Store for the C6 counterexample: `_last_checkpoint` names the checkpoint
the handle has already observed, and log entry 0 exists. -/
def stgC6 : LogStore :=
  { lastCheckpointFile := .ok cpC6
    checkpointListing := []
    checkpointActions := fun _ => []
    logs := [some [Action.add addC6]] }

/-- Handle for the C6 counterexample: it already holds the checkpoint and
the projected file of log 0. -/
def tC6 : DeltaTable :=
  { version := 0
    table_path := "t"
    state := { DeltaTableState.empty with files := [addC6] }
    last_check_point := some cpC6
    log_path := "t/_delta_log" }

/-- C6 counterexample: when the same checkpoint is observed again, `update`
does NOT increment `version` before replaying — the probe leaves the handle
untouched, and the subsequent replay re-applies the entry at the current
version (duplicating its add), which differs from what incrementing by one
before the replay would produce. -/
theorem c6_counterexample :
    updateProbe stgC6 tC6 = .ok tC6 ∧
    tC6.version + 1 ≠ tC6.version ∧
    update stgC6 tC6 =
      .ok { tC6 with state := { tC6.state with files := [addC6, addC6] } } ∧
    update stgC6 tC6 ≠
      apply_logs_after_current_version stgC6 { tC6 with version := tC6.version + 1 } := by
  refine ⟨by decide, by decide, by decide, by decide⟩

/-- C6 (amended): `update` re-reads `_last_checkpoint`; when the observed
checkpoint differs (by version-only equality) from the last observed one it
restores it and sets `version = K+1`; when no checkpoint exists it
increments `version` by exactly one; but when the same checkpoint is
observed again it leaves the handle unchanged (no increment).  In every case
it then replays forward. -/
theorem c6_update_checkpoint_probe (stg : LogStore) (t : DeltaTable) :
    (∀ cp s2, stg.lastCheckpointFile = .ok cp →
      optCheckPointEq t.last_check_point (some cp) = false →
      restore_checkpoint stg cp = .ok s2 →
      update stg t = apply_logs_after_current_version stg
        { t with last_check_point := some cp, state := s2, version := cp.version + 1 }) ∧
    (∀ cp, stg.lastCheckpointFile = .ok cp →
      optCheckPointEq t.last_check_point (some cp) = true →
      update stg t = apply_logs_after_current_version stg t) ∧
    (stg.lastCheckpointFile = .error .notFound →
      update stg t = apply_logs_after_current_version stg { t with version := t.version + 1 }) := by
  refine ⟨?_, ?_, ?_⟩
  · intro cp s2 hcp hne hres
    unfold update updateProbe
    rw [hcp]
    simp only [hne, Bool.false_eq_true, if_false, hres]
  · intro cp hcp heq
    unfold update updateProbe
    rw [hcp]
    simp only [heq, if_true]
  · intro hcp
    unfold update updateProbe
    rw [hcp]

/-- Checkpoint at version 1 used by the C6 witness. -/
def cpC6w : CheckPoint := { version := 1, size := 0, parts := none }

/-- Store for the C6 witness: a checkpoint newer than the one the handle
holds. -/
def stgC6w : LogStore :=
  { lastCheckpointFile := .ok cpC6w
    checkpointListing := []
    checkpointActions := fun _ => [Action.add addC6]
    logs := [] }

/-- Witness for C6 on a concrete store whose checkpoint differs from the
handle's. -/
theorem c6_update_checkpoint_probe_witness :
    (stgC6w.lastCheckpointFile = .ok cpC6w ∧
      optCheckPointEq tC6.last_check_point (some cpC6w) = false ∧
      restore_checkpoint stgC6w cpC6w =
        .ok { DeltaTableState.empty with files := [addC6] }) ∧
    update stgC6w tC6 = apply_logs_after_current_version stgC6w
      { tC6 with last_check_point := some cpC6w
                 state := { DeltaTableState.empty with files := [addC6] }
                 version := cpC6w.version + 1 } :=
  ⟨⟨rfl, by decide, by decide⟩,
    (c6_update_checkpoint_probe stgC6w tC6).1 cpC6w
      { DeltaTableState.empty with files := [addC6] } rfl (by decide) (by decide)⟩


/-! ## Claim C7: load_version -/

/-- Old add record held by the handle of the C7 counterexample. -/
def addC7 : AddAction :=
  { path := "old", size := 1, modificationTime := 0, dataChange := true }

/-- Handle of the C7 counterexample: it already holds a file. -/
def tC7 : DeltaTable :=
  { version := 7
    table_path := "t"
    state := { DeltaTableState.empty with files := [addC7] }
    last_check_point := none
    log_path := "t/_delta_log" }

/-- Store of the C7 counterexample: no checkpoint files, one (empty) log
entry at version 0. -/
def stgC7 : LogStore :=
  { lastCheckpointFile := .error .notFound
    checkpointListing := []
    checkpointActions := fun _ => []
    logs := [some []] }

/-- C7 counterexample: on the no-checkpoint path, `load_version` does NOT
reset the state — loading version 0 of a table whose only log entry is
empty keeps the handle's pre-existing file. -/
theorem c7_counterexample :
    load_version stgC7 tC7 0 = .ok { tC7 with version := 0 } ∧
    ({ tC7 with version := 0 } : DeltaTable).state.files ≠ [] := by
  refine ⟨by decide, by decide⟩

/-- C7 (amended): `load_version v` fails with `InvalidVersion v` when the
log entry for `v` is absent; otherwise it sets `version = v` and — when a
checkpoint with version `K ≤ v` exists — restores it and applies exactly
the log entries `K+1` through `v` in ascending order, while — when none
exists — it applies entries `0` through `v` into the handle's current state
(no reset). -/
theorem c7_load_version (stg : LogStore) (t : DeltaTable) (v : Int) :
    (logGet stg v = none → load_version stg t v = .error (.invalidVersion v)) ∧
    (∀ cp s2, logGet stg v ≠ none →
      find_latest_check_point_for_version stg v = some cp →
      restore_checkpoint stg cp = .ok s2 →
      (∀ w : Int, cp.version + 1 ≤ w → w ≤ v → (logGet stg w).isSome) →
      load_version stg t v =
        match applyActions s2 (logsRange stg (cp.version + 1) v) with
        | .error m => .error (.applyLog (.invalidJson m))
        | .ok s3 => .ok { t with version := v, state := s3 }) ∧
    (logGet stg v ≠ none →
      find_latest_check_point_for_version stg v = none →
      (∀ w : Int, 0 ≤ w → w ≤ v → (logGet stg w).isSome) →
      load_version stg t v =
        match applyActions t.state (logsRange stg 0 v) with
        | .error m => .error (.applyLog (.invalidJson m))
        | .ok s3 => .ok { t with version := v, state := s3 }) := by
  refine ⟨?_, ?_, ?_⟩
  · intro h
    unfold load_version
    rw [h]
  · intro cp s2 hne hfind hres hp
    cases he : logGet stg v with
    | none => exact absurd he hne
    | some e =>
      unfold load_version
      rw [he, hfind]
      dsimp only
      rw [hres]
      dsimp only
      rw [applyRangeLoop_eq_fold stg ((v - (cp.version + 1)).toNat + 2) (cp.version + 1)
        { t with version := v, state := s2 }
        (by show (v + 1 - (cp.version + 1)).toNat < (v - (cp.version + 1)).toNat + 2; omega)
        (fun w hw1 hw2 => hp w hw1 hw2)]
  · intro hne hfind hp
    cases he : logGet stg v with
    | none => exact absurd he hne
    | some e =>
      have hv0 : 0 ≤ v := (logGet_isSome_bounds stg v (by rw [he]; rfl)).1
      unfold load_version
      rw [he, hfind]
      dsimp only
      rw [applyRangeLoop_eq_fold stg (v.toNat + 2) 0 { t with version := v }
        (by show (v + 1 - 0).toNat < v.toNat + 2; omega)
        (fun w hw1 hw2 => hp w hw1 hw2)]

/-- Store of the C7 witness: one single-part checkpoint at version 0 whose
content is one add, and log entries 0 and 1. -/
def cpC7w : CheckPoint := { version := 0, size := 0, parts := none }

/-- Adds used by the C7 witness. -/
def addC7x : AddAction :=
  { path := "x", size := 1, modificationTime := 0, dataChange := true }

/-- Adds used by the C7 witness. -/
def addC7y : AddAction :=
  { path := "y", size := 1, modificationTime := 0, dataChange := true }

/-- Store of the C7 witness. -/
def stgC7w : LogStore :=
  { lastCheckpointFile := .error .notFound
    checkpointListing := [cpC7w]
    checkpointActions := fun _ => [Action.add addC7x]
    logs := [some [Action.add addC7x], some [Action.add addC7y]] }

/-- Witness for C7 at version 1 of a concrete store with a checkpoint at
version 0. -/
theorem c7_load_version_witness :
    (logGet stgC7w 1 ≠ none ∧
      find_latest_check_point_for_version stgC7w 1 = some cpC7w ∧
      restore_checkpoint stgC7w cpC7w =
        .ok { DeltaTableState.empty with files := [addC7x] } ∧
      (∀ w : Int, cpC7w.version + 1 ≤ w → w ≤ 1 → (logGet stgC7w w).isSome)) ∧
    load_version stgC7w (DeltaTable.new "t") 1 =
      match applyActions { DeltaTableState.empty with files := [addC7x] }
          (logsRange stgC7w (cpC7w.version + 1) 1) with
      | .error m => .error (.applyLog (.invalidJson m))
      | .ok s3 => .ok { DeltaTable.new "t" with version := 1, state := s3 } :=
  ⟨⟨by decide, by decide, by decide,
    fun w hw1 hw2 => by
      have hw : w = 1 := by
        have h1 : (1 : Int) ≤ w := hw1
        omega
      rw [hw]
      rfl⟩,
    (c7_load_version stgC7w (DeltaTable.new "t") 1).2.1 cpC7w
      { DeltaTableState.empty with files := [addC7x] }
      (by decide) (by decide) (by decide)
      (fun w hw1 hw2 => by
        have hw : w = 1 := by
          have h1 : (1 : Int) ≤ w := hw1
          omega
        rw [hw]
        rfl)⟩

/-! ## Claim C10: the no-checkpoint path does not reset the state -/

/-- The add payloads of a list of actions, in order. -/
def addsOf (l : List Action) : List AddAction :=
  l.filterMap (fun a =>
    match a with
    | .add v => some v
    | _ => none)

theorem applyActions_all_adds :
    ∀ (l : List Action) (s : DeltaTableState),
      (∀ a ∈ l, ∃ v, a = Action.add v) →
      applyActions s l = .ok { s with files := s.files ++ addsOf l } := by
  intro l
  induction l with
  | nil =>
    intro s _
    simp [applyActions, addsOf]
  | cons a rest ih =>
    intro s h
    obtain ⟨v, rfl⟩ := h a (List.mem_cons_self a rest)
    simp only [applyActions, process_action]
    rw [ih _ (fun b hb => h b (List.mem_cons_of_mem _ hb))]
    simp [addsOf, List.filterMap_cons, List.append_assoc]

/-- C10: the table state is only reset inside `restore_checkpoint`; on the
no-checkpoint path, `load` folds the replayed log actions into whatever
state the handle already holds, so a handle with a non-empty files list ends
up with its old files prepended to the replayed adds rather than starting
from an empty state. -/
theorem c10_load_no_reset (stg : LogStore) (t : DeltaTable)
    (hcp : stg.lastCheckpointFile = .error .notFound)
    (hsome : ∀ e ∈ stg.logs, e.isSome)
    (hadds : ∀ e ∈ stg.logs, ∀ a ∈ e.getD [], ∃ v, a = Action.add v)
    (hne : stg.logs ≠ []) :
    ∃ t2, load stg t = .ok t2 ∧
      t2.state.files =
        t.state.files ++ addsOf (logsRange stg 0 ((stg.logs.length : Int) - 1)) ∧
      t2.version = (stg.logs.length : Int) - 1 ∧
      (t.state.files ≠ [] →
        t2.state.files ≠ addsOf (logsRange stg 0 ((stg.logs.length : Int) - 1))) := by
  have hlen : 0 < stg.logs.length := List.length_pos_of_ne_nil hne
  have hpres : ∀ w : Int, (0 : Int) ≤ w → w < (stg.logs.length : Int) →
      (logGet stg w).isSome := by
    intro w hw1 hw2
    have hwn : w.toNat < stg.logs.length := by omega
    have : logGet stg w = stg.logs[w.toNat] := by
      unfold logGet
      rw [if_pos hw1]
      exact List.getD_eq_getElem stg.logs none hwn
    rw [this]
    exact hsome _ (List.getElem_mem hwn)
  have hallAdds : ∀ a ∈ logsRange stg 0 ((stg.logs.length : Int) - 1),
      ∃ v, a = Action.add v := by
    intro a ha
    obtain ⟨l, hl, hal⟩ := List.mem_flatten.mp ha
    obtain ⟨i, hi, hfl⟩ := List.mem_map.mp hl
    have hirange := List.mem_range.mp hi
    have hin : (((stg.logs.length : Int) - 1 - 0 + 1).toNat) = stg.logs.length := by omega
    rw [hin] at hirange
    have hget : logGet stg ((0 : Int) + (i : Int)) = stg.logs[i] := by
      unfold logGet
      rw [if_pos (by omega)]
      have : ((0 : Int) + (i : Int)).toNat = i := by omega
      rw [this]
      exact List.getD_eq_getElem stg.logs none hirange
    rw [hget] at hfl
    rw [← hfl] at hal
    exact hadds _ (List.getElem_mem hirange) a hal
  unfold load
  rw [hcp]
  dsimp only
  unfold apply_logs_after_current_version
  rw [applyLogsLoop_eq_fold stg (stg.logs.length + 2) { t with version := 0 }
    (by show (0 : Int) ≤ 0; omega)
    (by show (0 : Int) ≤ (stg.logs.length : Int); omega)
    (fun w hw1 hw2 => hpres w hw1 hw2)
    (by show stg.logs.length + 1 ≤ stg.logs.length + 2 + (0 : Int).toNat; omega)]
  rw [applyActions_all_adds _ _ hallAdds]
  dsimp only
  have hni : ¬ ((stg.logs.length : Int) - 1 = -1) := by omega
  rw [if_neg hni]
  refine ⟨_, rfl, rfl, rfl, ?_⟩
  intro hfiles heq
  apply hfiles
  have h2 : ({ t with version := 0 } : DeltaTable).state.files ++
      addsOf (logsRange stg 0 ((stg.logs.length : Int) - 1)) =
      addsOf (logsRange stg 0 ((stg.logs.length : Int) - 1)) := heq
  rwa [List.append_left_eq_self] at h2

/-- Add record of the C10 witness. -/
def addC10 : AddAction :=
  { path := "dup", size := 1, modificationTime := 0, dataChange := true }

/-- Store of the C10 witness: one log entry, no checkpoint. -/
def stgC10 : LogStore :=
  { lastCheckpointFile := .error .notFound
    checkpointListing := []
    checkpointActions := fun _ => []
    logs := [some [Action.add addC10]] }

/-- Handle of the C10 witness: it already holds the file of log 0, as after
a first `load`. -/
def tC10 : DeltaTable :=
  { version := 0
    table_path := "t"
    state := { DeltaTableState.empty with files := [addC10] }
    last_check_point := none
    log_path := "t/_delta_log" }

/-- Witness for C10: a second `load` of the one-entry checkpoint-less table
appends a duplicate add. -/
theorem c10_load_no_reset_witness :
    (stgC10.lastCheckpointFile = .error .notFound ∧
      (∀ e ∈ stgC10.logs, e.isSome) ∧ stgC10.logs ≠ []) ∧
    (∃ t2, load stgC10 tC10 = .ok t2 ∧
      t2.state.files =
        tC10.state.files ++ addsOf (logsRange stgC10 0 ((stgC10.logs.length : Int) - 1)) ∧
      t2.version = (stgC10.logs.length : Int) - 1 ∧
      (tC10.state.files ≠ [] →
        t2.state.files ≠ addsOf (logsRange stgC10 0 ((stgC10.logs.length : Int) - 1)))) :=
  ⟨⟨rfl, by decide, by decide⟩,
    c10_load_no_reset stgC10 tC10 rfl (by decide)
      (by
        intro e he a ha
        have he2 : e ∈ [some [Action.add addC10]] := he
        rw [List.mem_singleton] at he2
        subst he2
        rw [Option.getD_some, List.mem_singleton] at ha
        exact ⟨addC10, ha⟩)
      (by decide)⟩


/-! ## Commit engine -/

/-- `TransactionCommitAttemptError` (delta.rs:958-984). -/
inductive TransactionCommitAttemptError where
  | versionExists (source : StorageError)
  | deltaTable (source : DeltaTableError)
  | storage (source : StorageError)
  deriving Repr, DecidableEq

/-- `DeltaTransactionError` (delta.rs:908-955), restricted to the variants
the embedded operations produce. -/
inductive DeltaTransactionError where
  | transactionCommitAttempt (inner : TransactionCommitAttemptError)
  | versionAlreadyExists (inner : TransactionCommitAttemptError)
  | missingPartitionColumn
  | storage (source : StorageError)
  | deltaTable (source : DeltaTableError)
  | actionSerializationFailed (msg : String)
  deriving Repr, DecidableEq

/-- `From<StorageError> for TransactionCommitAttemptError`
(delta.rs:996-1005): `AlreadyExists` maps to `VersionExists`, everything
else to `Storage`. -/
def storageToCommitAttemptError : StorageError → TransactionCommitAttemptError
  | .alreadyExists p => .versionExists (.alreadyExists p)
  | e => .storage e

/-- `From<TransactionCommitAttemptError> for DeltaTransactionError`
(delta.rs:986-995). -/
def commitAttemptToTransactionError : TransactionCommitAttemptError → DeltaTransactionError
  | .versionExists e => .versionAlreadyExists (.versionExists e)
  | e => .transactionCommitAttempt e

/-- `try_commit_loop` (delta.rs:1117-1153) against an environment of
observations: `ver i` is the table version the `i`-th `next_attempt_version`
(an `update()` followed by `+ 1`) observes, and `renameErr i` is the storage
outcome of the `i`-th rename attempt (`none` means the rename succeeded).
The loop body mirrors the Rust match: success returns the attempted version;
a conflict (converted to `VersionExists`) fails once the attempt counter
exceeds `maxRetry + 1` and otherwise increments it and retries; any other
error aborts.  (The environment assumes the `update()` inside
`next_attempt_version` succeeds; its failures abort through the same
propagation as any other error and are outside the claim.) -/
def try_commit_loop (maxRetry : Nat) (ver : Nat → Int) (renameErr : Nat → Option StorageError)
    (i attempt : Nat) : Except TransactionCommitAttemptError Int :=
  match renameErr i with
  | none => .ok (ver i + 1)
  | some e =>
    match storageToCommitAttemptError e with
    | .versionExists e2 =>
        if h : attempt > maxRetry + 1 then .error (.versionExists e2)
        else try_commit_loop maxRetry ver renameErr (i + 1) (attempt + 1)
    | err => .error err
  termination_by maxRetry + 2 - attempt
  decreasing_by omega

theorem try_commit_loop_conflict_iff (m : Nat) (ver : Nat → Int)
    (out : Nat → Option StorageError) :
    ∀ (k a i : Nat), m + 2 - a = k →
    ((∃ s, try_commit_loop m ver out i a = .error (.versionExists s)) ↔
      ∀ j : Nat, j ≤ k → ∃ p, out (i + j) = some (.alreadyExists p)) := by
  intro k
  induction k with
  | zero =>
    intro a i hk
    have ha : m + 1 < a := by omega
    rw [try_commit_loop]
    cases hout : out i with
    | none =>
      constructor
      · rintro ⟨s, hs⟩
        exact absurd hs (by simp)
      · intro hall
        obtain ⟨p, hp⟩ := hall 0 (Nat.zero_le _)
        rw [Nat.add_zero, hout] at hp
        exact absurd hp (by simp)
    | some e =>
      cases e with
      | notFound =>
        constructor
        · rintro ⟨s, hs⟩
          exact absurd hs (by simp [storageToCommitAttemptError])
        · intro hall
          obtain ⟨p, hp⟩ := hall 0 (Nat.zero_le _)
          rw [Nat.add_zero, hout] at hp
          exact absurd hp (by simp)
      | other msg =>
        constructor
        · rintro ⟨s, hs⟩
          exact absurd hs (by simp [storageToCommitAttemptError])
        · intro hall
          obtain ⟨p, hp⟩ := hall 0 (Nat.zero_le _)
          rw [Nat.add_zero, hout] at hp
          exact absurd hp (by simp)
      | alreadyExists p =>
        constructor
        · intro _ j hj
          have hj0 : j = 0 := by omega
          subst hj0
          exact ⟨p, by rw [Nat.add_zero, hout]⟩
        · intro _
          refine ⟨.alreadyExists p, ?_⟩
          simp [storageToCommitAttemptError, dif_pos ha]
  | succ k ih =>
    intro a i hk
    have ha : ¬ a > m + 1 := by omega
    rw [try_commit_loop]
    cases hout : out i with
    | none =>
      constructor
      · rintro ⟨s, hs⟩
        exact absurd hs (by simp)
      · intro hall
        obtain ⟨p, hp⟩ := hall 0 (Nat.zero_le _)
        rw [Nat.add_zero, hout] at hp
        exact absurd hp (by simp)
    | some e =>
      cases e with
      | notFound =>
        constructor
        · rintro ⟨s, hs⟩
          exact absurd hs (by simp [storageToCommitAttemptError])
        · intro hall
          obtain ⟨p, hp⟩ := hall 0 (Nat.zero_le _)
          rw [Nat.add_zero, hout] at hp
          exact absurd hp (by simp)
      | other msg =>
        constructor
        · rintro ⟨s, hs⟩
          exact absurd hs (by simp [storageToCommitAttemptError])
        · intro hall
          obtain ⟨p, hp⟩ := hall 0 (Nat.zero_le _)
          rw [Nat.add_zero, hout] at hp
          exact absurd hp (by simp)
      | alreadyExists p =>
        simp only [storageToCommitAttemptError, dif_neg ha]
        rw [ih (a + 1) (i + 1) (by omega)]
        constructor
        · intro hall j hj
          cases j with
          | zero => exact ⟨p, by rw [Nat.add_zero, hout]⟩
          | succ j2 =>
            obtain ⟨q, hq⟩ := hall j2 (by omega)
            exact ⟨q, by rw [show i + (j2 + 1) = i + 1 + j2 by omega]; exact hq⟩
        · intro hall j hj
          obtain ⟨q, hq⟩ := hall (j + 1) (by omega)
          exact ⟨q, by rw [show i + 1 + j = i + (j + 1) by omega]; exact hq⟩

/-! ## Claim C2: the optimistic commit retry loop -/

/-- C2: in `commit_with`'s retry loop, a successful rename returns the
version targeted after the latest `update()`; a rename failing with
`AlreadyExists` increments the attempt counter and retries at the next
observed version when the counter is still within bounds, and fails with
`VersionExists` exactly when the counter exceeds `max_retry_commit_attempts
+ 1` (so, from a fresh start, the loop ends in `VersionExists` iff every one
of the first `maxRetry + 3` attempts conflicts); any storage error other
than `AlreadyExists` aborts the loop immediately. -/
theorem c2_try_commit_loop (m : Nat) (ver : Nat → Int) (out : Nat → Option StorageError) :
    (∀ i a, out i = none → try_commit_loop m ver out i a = .ok (ver i + 1)) ∧
    (∀ i a p, out i = some (.alreadyExists p) → a ≤ m + 1 →
      try_commit_loop m ver out i a = try_commit_loop m ver out (i + 1) (a + 1)) ∧
    (∀ i a p, out i = some (.alreadyExists p) → a > m + 1 →
      try_commit_loop m ver out i a = .error (.versionExists (.alreadyExists p))) ∧
    ((∃ s, try_commit_loop m ver out 0 0 = .error (.versionExists s)) ↔
      ∀ j : Nat, j ≤ m + 2 → ∃ p, out j = some (.alreadyExists p)) ∧
    (∀ i a e, out i = some e → (∀ p, e ≠ .alreadyExists p) →
      try_commit_loop m ver out i a = .error (.storage e)) := by
  refine ⟨?_, ?_, ?_, ?_, ?_⟩
  · intro i a hout
    rw [try_commit_loop, hout]
  · intro i a p hout hle
    rw [try_commit_loop, hout]
    simp [storageToCommitAttemptError, dif_neg (by omega : ¬ a > m + 1)]
  · intro i a p hout hgt
    rw [try_commit_loop, hout]
    simp [storageToCommitAttemptError, dif_pos hgt]
  · have h := try_commit_loop_conflict_iff m ver out (m + 2) 0 0 (by omega)
    simpa using h
  · intro i a e hout hne
    rw [try_commit_loop, hout]
    cases e with
    | notFound => rfl
    | other msg => rfl
    | alreadyExists p => exact absurd rfl (hne p)

/-- Version observations of the C2 witness. -/
def verC2 : Nat → Int := fun i => (i : Int)

/-- Rename outcomes of the C2 witness: the first attempt conflicts, the
second succeeds. -/
def outC2 : Nat → Option StorageError :=
  fun i => if i = 0 then some (.alreadyExists "v1") else none

/-- Witness for C2 with `max_retry_commit_attempts = 0`: one conflict, one
retry at the next version, then success. -/
theorem c2_try_commit_loop_witness :
    (outC2 0 = some (.alreadyExists "v1") ∧ (0 : Nat) ≤ 0 + 1 ∧ outC2 1 = none) ∧
    try_commit_loop 0 verC2 outC2 0 0 = try_commit_loop 0 verC2 outC2 1 1 ∧
    try_commit_loop 0 verC2 outC2 1 1 = .ok (verC2 1 + 1) :=
  ⟨⟨rfl, by omega, rfl⟩,
    (c2_try_commit_loop 0 verC2 outC2).2.1 0 0 "v1" rfl (by omega),
    (c2_try_commit_loop 0 verC2 outC2).1 1 1 rfl⟩


/-! ## Claim C5: commit_version -/

/-- Whether the log entry for `v` exists (a `head` of its path succeeds). -/
def logExists (stg : LogStore) (v : Int) : Bool :=
  (logGet stg v).isSome

/-- Store a log entry at slot `n`, padding absent intermediate slots. -/
def setLog (logs : List (Option (List Action))) (n : Nat) (entry : List Action) :
    List (Option (List Action)) :=
  if n < logs.length then logs.set n (some entry)
  else logs ++ List.replicate (n - logs.length) none ++ [some entry]

/-- `rename_obj` of the staged commit file onto the log path for `v`
(`try_commit`, delta.rs:1170-1185): per the storage contract the rename
fails with `AlreadyExists` when the destination exists and otherwise
creates it.  (A negative `v` is never produced by the engine; the model
leaves the store unchanged there.) -/
def rename_to_log (stg : LogStore) (log_path : String) (v : Int) (entry : List Action) :
    Except StorageError LogStore :=
  if logExists stg v then .error (.alreadyExists (version_to_log_path log_path v))
  else if 0 ≤ v then .ok { stg with logs := setLog stg.logs v.toNat entry }
  else .ok stg

/-- `commit_version` (delta.rs:1100-1115): serialize and stage the actions
(the staged temporary object does not affect the log listing), attempt a
single rename to the caller-chosen version, convert the error through the
two `From` impls, and on success `update()` the handle and return the
version.  The handle and store are returned alongside the result to make
their final values observable. -/
def commit_version (stg : LogStore) (t : DeltaTable) (version : Int)
    (actions : List Action) :
    DeltaTable × LogStore × Except DeltaTransactionError Int :=
  match rename_to_log stg t.log_path version actions with
  | .error e =>
      (t, stg, .error (commitAttemptToTransactionError (storageToCommitAttemptError e)))
  | .ok stg2 =>
    match update stg2 t with
    | .error e => (t, stg2, .error (.deltaTable e))
    | .ok t2 => (t2, stg2, .ok version)

/-- C5: `commit_version` performs a single rename attempt; when the
destination log path already exists it fails with `VersionAlreadyExists`
without retrying and leaves the handle and store untouched (`update()` is
not reached); on success it runs `update()` and returns the chosen
version. -/
theorem c5_commit_version (stg : LogStore) (t : DeltaTable) (v : Int)
    (actions : List Action) :
    (logExists stg v = true →
      commit_version stg t v actions =
        (t, stg, .error (.versionAlreadyExists
          (.versionExists (.alreadyExists (version_to_log_path t.log_path v)))))) ∧
    (∀ stg2, logExists stg v = false →
      rename_to_log stg t.log_path v actions = .ok stg2 →
      ((∀ e, update stg2 t = .error e →
          commit_version stg t v actions = (t, stg2, .error (.deltaTable e))) ∧
        (∀ t2, update stg2 t = .ok t2 →
          commit_version stg t v actions = (t2, stg2, .ok v)))) := by
  constructor
  · intro hex
    unfold commit_version rename_to_log
    rw [if_pos hex]
    rfl
  · intro stg2 hex hren
    constructor
    · intro e hupd
      unfold commit_version
      rw [hren]
      dsimp only
      rw [hupd]
    · intro t2 hupd
      unfold commit_version
      rw [hren]
      dsimp only
      rw [hupd]

/-- Adds used by the C5 witness. -/
def addC5 : AddAction :=
  { path := "n", size := 1, modificationTime := 0, dataChange := true }

/-- Store of the C5 witness: no checkpoint, log 0 present. -/
def stgC5 : LogStore :=
  { lastCheckpointFile := .error .notFound
    checkpointListing := []
    checkpointActions := fun _ => []
    logs := [some []] }

/-- Handle of the C5 witness. -/
def tC5 : DeltaTable := DeltaTable.new "t"

/-- Witness for C5: committing to the occupied slot 0 conflicts without
touching the handle; committing to the free slot 1 succeeds and runs
`update()`. -/
theorem c5_commit_version_witness :
    (logExists stgC5 0 = true ∧
      commit_version stgC5 tC5 0 [Action.add addC5] =
        (tC5, stgC5, .error (.versionAlreadyExists
          (.versionExists (.alreadyExists (version_to_log_path tC5.log_path 0)))))) ∧
    (logExists stgC5 1 = false ∧
      rename_to_log stgC5 tC5.log_path 1 [Action.add addC5] =
        .ok { stgC5 with logs := [some [], some [Action.add addC5]] } ∧
      update { stgC5 with logs := [some [], some [Action.add addC5]] } tC5 =
        .ok { tC5 with version := 1
                       state := { DeltaTableState.empty with files := [addC5] } } ∧
      commit_version stgC5 tC5 1 [Action.add addC5] =
        ({ tC5 with version := 1
                    state := { DeltaTableState.empty with files := [addC5] } },
          { stgC5 with logs := [some [], some [Action.add addC5]] }, .ok 1)) := by
  refine ⟨⟨by decide, (c5_commit_version stgC5 tC5 0 [Action.add addC5]).1 (by decide)⟩,
    by decide, ?_, ?_, ?_⟩
  · show rename_to_log stgC5 tC5.log_path 1 [Action.add addC5] =
      .ok { stgC5 with logs := [some [], some [Action.add addC5]] }
    rfl
  · decide
  · exact ((c5_commit_version stgC5 tC5 1 [Action.add addC5]).2
      { stgC5 with logs := [some [], some [Action.add addC5]] } (by decide) (by
        show rename_to_log stgC5 tC5.log_path 1 [Action.add addC5] =
          .ok { stgC5 with logs := [some [], some [Action.add addC5]] }
        rfl)).2
      { tC5 with version := 1
                 state := { DeltaTableState.empty with files := [addC5] } }
      (by decide)


/-! ## Claim C8: vacuum -/

/-- `get_file_paths` (delta.rs:676-682): full paths of the live files. -/
def get_file_paths (t : DeltaTable) : List String :=
  t.state.files.map (fun a => join_path t.table_path a.path)

/-- `get_stale_files` (delta.rs:715-732): reject retention below 168 hours,
compute the cut-off in epoch milliseconds (`now - hours * 3_600_000`; a
pre-epoch cut-off is also rejected), and return the joined paths of the
tombstones deleted before the cut-off.  `nowMs` stands for the system clock
in milliseconds. -/
def get_stale_files (t : DeltaTable) (nowMs : Int) (retention_hours : Nat) :
    Except DeltaTableError (List String) :=
  if retention_hours < 168 then .error .invalidVacuumRetentionPeriod
  else
    if nowMs - 3600000 * (retention_hours : Int) < 0 then
      .error .invalidVacuumRetentionPeriod
    else
      .ok ((t.state.tombstones.filter
          (fun tomb => tomb.deletionTimestamp < nowMs - 3600000 * (retention_hours : Int))).map
        (fun tomb => join_path t.table_path tomb.path))

/-- `is_hidden_directory` (delta.rs:738-759), with the Rust `&&`/`||`
short-circuit evaluation made explicit: the metadata lookup (which fails
with `NoMetadata` when the table holds none) is only reached for paths
starting with the hidden prefixes and not with the two whitelisted ones. -/
def is_hidden_directory (t : DeltaTable) (path_name : String) :
    Except DeltaTableError Bool :=
  if path_name.startsWith (join_path t.table_path ".")
      || path_name.startsWith (join_path t.table_path "_") then
    if path_name.startsWith (join_path t.table_path "_delta_index") then .ok false
    else if path_name.startsWith (join_path t.table_path "_change_data") then .ok false
    else
      match t.state.current_metadata with
      | none => .error .noMetadata
      | some md =>
        .ok (!(md.partition_columns.any
          (fun c => path_name.startsWith (join_path t.table_path c))))
  else .ok false

/-- The candidate-collection loop inside `vacuum` (delta.rs:770-780): a
listed path is a delete candidate iff it is not a live file path, is among
the stale tombstone paths, and is not a hidden directory. -/
def vacuumScan (t : DeltaTable) (stale : List String) :
    List String → Except DeltaTableError (List String)
  | [] => .ok []
  | p :: rest =>
    match is_hidden_directory t p with
    | .error e => .error e
    | .ok hidden =>
      match vacuumScan t stale rest with
      | .error e => .error e
      | .ok acc =>
        if !((get_file_paths t).contains p) && stale.contains p && !hidden then
          .ok (p :: acc)
        else .ok acc

/-- `vacuum` (delta.rs:763-795): compute the stale set, scan the listing of
the whole table prefix (`allFiles`), and — unless `dry_run` — delete every
candidate (a `NotFound` during deletion is ignored).  The post-state of the
listing is returned alongside the result so deletions are observable. -/
def vacuum (t : DeltaTable) (allFiles : List String) (nowMs : Int)
    (retention_hours : Nat) (dry_run : Bool) :
    Except DeltaTableError (List String) × List String :=
  match get_stale_files t nowMs retention_hours with
  | .error e => (.error e, allFiles)
  | .ok tombstones_path =>
    match vacuumScan t tombstones_path allFiles with
    | .error e => (.error e, allFiles)
    | .ok tombstones =>
      if dry_run then (.ok tombstones, allFiles)
      else (.ok tombstones, allFiles.filter (fun p => !(tombstones.contains p)))

/-- C8: `vacuum` with a retention below 168 hours fails with
`InvalidVacuumRetentionPeriod` regardless of `dry_run` (and deletes
nothing); a dry run never touches storage and reports exactly the
candidate list a wet run would delete. -/
theorem c8_vacuum_guard_and_dry_run (t : DeltaTable) (allFiles : List String)
    (nowMs : Int) (retention_hours : Nat) :
    (retention_hours < 168 → ∀ dry_run : Bool,
      vacuum t allFiles nowMs retention_hours dry_run =
        (.error .invalidVacuumRetentionPeriod, allFiles)) ∧
    ((vacuum t allFiles nowMs retention_hours true).2 = allFiles ∧
      (vacuum t allFiles nowMs retention_hours true).1 =
        (vacuum t allFiles nowMs retention_hours false).1) := by
  constructor
  · intro hret dry_run
    unfold vacuum get_stale_files
    rw [if_pos hret]
  · unfold vacuum
    cases get_stale_files t nowMs retention_hours with
    | error e => exact ⟨rfl, rfl⟩
    | ok stale =>
      dsimp only
      cases vacuumScan t stale allFiles with
      | error e => exact ⟨rfl, rfl⟩
      | ok cands => exact ⟨rfl, rfl⟩

/-- Tombstone of the C8 witness. -/
def remC8 : RemoveAction := { path := "gone", deletionTimestamp := 0, dataChange := true }

/-- Handle of the C8 witness: one live file, one expired tombstone, and
metadata so the hidden-directory check succeeds. -/
def tC8 : DeltaTable :=
  { version := 0
    table_path := "t"
    state :=
      { DeltaTableState.empty with
          tombstones := [remC8]
          current_metadata := some
            { id := "id", name := none, description := none
              format := { provider := "parquet", options := [] }
              schema := "s", partition_columns := [], created_time := 0
              configuration := [] } }
    last_check_point := none
    log_path := "t/_delta_log" }

/-- Witness for C8: retention 167 is rejected in both modes; at retention
168 the dry run keeps the listing and returns the same candidates the wet
run deletes. -/
theorem c8_vacuum_guard_and_dry_run_witness :
    (167 < 168 ∧
      vacuum tC8 ["t/gone"] 1000000000000 167 true =
        (.error .invalidVacuumRetentionPeriod, ["t/gone"]) ∧
      vacuum tC8 ["t/gone"] 1000000000000 167 false =
        (.error .invalidVacuumRetentionPeriod, ["t/gone"])) ∧
    ((vacuum tC8 ["t/gone"] 1000000000000 168 true).2 = ["t/gone"] ∧
      (vacuum tC8 ["t/gone"] 1000000000000 168 true).1 =
        (vacuum tC8 ["t/gone"] 1000000000000 168 false).1) :=
  ⟨⟨by omega,
    (c8_vacuum_guard_and_dry_run tC8 ["t/gone"] 1000000000000 167).1 (by omega) true,
    (c8_vacuum_guard_and_dry_run tC8 ["t/gone"] 1000000000000 167).1 (by omega) false⟩,
    (c8_vacuum_guard_and_dry_run tC8 ["t/gone"] 1000000000000 168).2⟩


/-! ## Claim C3: time travel by datetime

`load_with_datetime` (delta.rs:843-877) binary-searches the versions
`[0, max_version]` by the cached per-version modification timestamps (the
`get_version_timestamp` read-through cache is abstracted as the function
`ts`), clamps a negative result to 0, and delegates to `load_version`.
-/

/-- The binary-search loop of `load_with_datetime` (delta.rs:853-870), with
explicit fuel (the fuel-exhausted value is never reached from the entry
point).  `Int.tdiv` is the Rust `i64` division (truncation toward zero);
the carried `version` mirrors the Rust local mutated before the three-way
branch. -/
def binarySearchLoop (ts : Int → Int) (target : Int) :
    Nat → Int → Int → Int → Int
  | 0, _, _, version => version
  | fuel + 1, minV, maxV, version =>
    if minV ≤ maxV then
      let pivot := (maxV + minV).tdiv 2
      if ts pivot = target then pivot
      else if ts pivot < target then binarySearchLoop ts target fuel (pivot + 1) maxV pivot
      else binarySearchLoop ts target fuel minV (pivot - 1) (pivot - 1)
    else version

/-- The version `load_with_datetime` resolves and then loads: the result of
the binary search over `[0, maxVersion]`, clamped to 0 when negative. -/
def load_with_datetime_version (ts : Int → Int) (maxVersion target : Int) : Int :=
  if binarySearchLoop ts target (maxVersion.toNat + 2) 0 maxVersion 0 < 0 then 0
  else binarySearchLoop ts target (maxVersion.toNat + 2) 0 maxVersion 0

/-- `load_with_datetime` (delta.rs:843-877): resolve the version and
delegate to `load_version`. -/
def load_with_datetime (stg : LogStore) (t : DeltaTable) (ts : Int → Int)
    (maxVersion target : Int) : Except DeltaTableError DeltaTable :=
  load_version stg t (load_with_datetime_version ts maxVersion target)

theorem pivot_bounds (minV maxV : Int) (h0 : 0 ≤ minV) (hle : minV ≤ maxV) :
    minV ≤ (maxV + minV).tdiv 2 ∧ (maxV + minV).tdiv 2 ≤ maxV := by
  rw [Int.tdiv_eq_ediv (by omega) (by norm_num)]
  constructor
  · have h1 : (2 * minV) / 2 ≤ (maxV + minV) / 2 :=
      Int.ediv_le_ediv (by norm_num) (by omega)
    rwa [Int.mul_ediv_cancel_left _ (by norm_num)] at h1
  · have h1 : (maxV + minV) / 2 ≤ (2 * maxV) / 2 :=
      Int.ediv_le_ediv (by norm_num) (by omega)
    rwa [Int.mul_ediv_cancel_left _ (by norm_num)] at h1


theorem binarySearchLoop_greatest (ts : Int → Int) (target M : Int)
    (hmono : ∀ i j : Int, i < j → ts i < ts j) (hM : 0 ≤ M) (hc : ts 0 ≤ target) :
    ∀ (fuel : Nat) (minV maxV version : Int),
      0 ≤ minV → maxV ≤ M → minV ≤ maxV + 1 →
      (maxV - minV + 1).toNat < fuel →
      (∀ v : Int, 0 ≤ v → v < minV → ts v ≤ target) →
      (∀ v : Int, maxV < v → v ≤ M → target < ts v) →
      (version = minV - 1 ∨ minV ≤ maxV) →
      (0 ≤ binarySearchLoop ts target fuel minV maxV version ∧
        binarySearchLoop ts target fuel minV maxV version ≤ M ∧
        ts (binarySearchLoop ts target fuel minV maxV version) ≤ target ∧
        ∀ v : Int, binarySearchLoop ts target fuel minV maxV version < v → v ≤ M →
          target < ts v) := by
  intro fuel
  induction fuel with
  | zero => intro minV maxV version h0 hMax hE hf hB hC hD; omega
  | succ fuel ih =>
    intro minV maxV version h0 hMax hE hf hB hC hD
    by_cases hle : minV ≤ maxV
    · obtain ⟨hp1, hp2⟩ := pivot_bounds minV maxV h0 hle
      simp only [binarySearchLoop, if_pos hle]
      rcases lt_trichotomy (ts ((maxV + minV).tdiv 2)) target with hcmp | hcmp | hcmp
      · rw [if_neg (ne_of_lt hcmp), if_pos hcmp]
        refine ih ((maxV + minV).tdiv 2 + 1) maxV ((maxV + minV).tdiv 2)
          ?_ hMax ?_ ?_ ?_ hC ?_
        · omega
        · omega
        · omega
        · intro v hv1 hv2
          rcases lt_or_eq_of_le (by omega : v ≤ (maxV + minV).tdiv 2) with h | h
          · exact le_of_lt (lt_trans (hmono v _ h) hcmp)
          · rw [h]
            exact le_of_lt hcmp
        · exact Or.inl (by omega)
      · rw [if_pos hcmp]
        refine ⟨by omega, by omega, le_of_eq hcmp, ?_⟩
        intro v hv1 hv2
        calc target = ts ((maxV + minV).tdiv 2) := hcmp.symm
          _ < ts v := hmono _ _ hv1
      · rw [if_neg (ne_of_gt hcmp), if_neg (not_lt.mpr (le_of_lt hcmp))]
        refine ih minV ((maxV + minV).tdiv 2 - 1) ((maxV + minV).tdiv 2 - 1)
          h0 ?_ ?_ ?_ hB ?_ ?_
        · omega
        · omega
        · omega
        · intro v hv1 hv2
          rcases lt_or_eq_of_le (by omega : (maxV + minV).tdiv 2 ≤ v) with h | h
          · exact lt_trans hcmp (hmono _ v h)
          · rw [← h]
            exact hcmp
        · omega
    · simp only [binarySearchLoop, if_neg hle]
      have hvv : version = minV - 1 := by
        rcases hD with h | h
        · exact h
        · omega
      subst hvv
      have h1 : 1 ≤ minV := by
        by_contra hlt
        have h2 := hC 0 (by omega) hM
        exact absurd hc (not_le.mpr h2)
      refine ⟨by omega, by omega, ?_, ?_⟩
      · exact hB (minV - 1) (by omega) (by omega)
      · intro v hv1 hv2
        exact hC v (by omega) hv2

theorem binarySearchLoop_no_candidate (ts : Int → Int) (target : Int)
    (h : ∀ v : Int, 0 ≤ v → target < ts v) :
    ∀ (fuel : Nat) (maxV version : Int),
      (maxV + 1).toNat < fuel →
      (version = -1 ∨ 0 ≤ maxV) →
      binarySearchLoop ts target fuel 0 maxV version = -1 := by
  intro fuel
  induction fuel with
  | zero => intro maxV version hf hD; omega
  | succ fuel ih =>
    intro maxV version hf hD
    by_cases hle : (0 : Int) ≤ maxV
    · obtain ⟨hp1, hp2⟩ := pivot_bounds 0 maxV le_rfl hle
      simp only [binarySearchLoop, if_pos hle]
      have hgt := h ((maxV + 0).tdiv 2) (by omega)
      rw [if_neg (ne_of_gt hgt), if_neg (not_lt.mpr (le_of_lt hgt))]
      exact ih ((maxV + 0).tdiv 2 - 1) ((maxV + 0).tdiv 2 - 1) (by omega) (by omega)
    · simp only [binarySearchLoop, if_neg hle]
      rcases hD with h1 | h1
      · exact h1
      · omega

/-- C3 (amended): assuming the log timestamps are strictly increasing in the
version, `load_with_datetime` resolves the greatest version in
`[0, max_version]` whose timestamp is at most the target (whenever one
exists, i.e. `ts 0 ≤ target`), and clamps the `-1` produced when every
timestamp exceeds the target to version 0 before delegating to
`load_version`. -/
theorem c3_load_with_datetime_greatest (ts : Int → Int) (M target : Int)
    (hmono : ∀ i j : Int, i < j → ts i < ts j) (hM : 0 ≤ M) :
    (ts 0 ≤ target →
      0 ≤ load_with_datetime_version ts M target ∧
      load_with_datetime_version ts M target ≤ M ∧
      ts (load_with_datetime_version ts M target) ≤ target ∧
      (∀ v : Int, load_with_datetime_version ts M target < v → v ≤ M →
        target < ts v)) ∧
    (target < ts 0 →
      binarySearchLoop ts target (M.toNat + 2) 0 M 0 = -1 ∧
      load_with_datetime_version ts M target = 0) := by
  constructor
  · intro hc
    obtain ⟨ha, hb, hts, hgr⟩ := binarySearchLoop_greatest ts target M hmono hM hc
      (M.toNat + 2) 0 M 0 le_rfl le_rfl (by omega) (by omega : (M - 0 + 1).toNat < M.toNat + 2)
      (by intro v h1 h2; exact absurd h2 (by omega))
      (by intro v h1 h2; exact absurd h1 (by omega))
      (Or.inr hM)
    unfold load_with_datetime_version
    rw [if_neg (not_lt.mpr ha)]
    exact ⟨ha, hb, hts, hgr⟩
  · intro hgt
    have hall : ∀ v : Int, 0 ≤ v → target < ts v := by
      intro v hv
      rcases eq_or_lt_of_le hv with h1 | h1
      · rw [← h1]
        exact hgt
      · exact lt_trans hgt (hmono 0 v h1)
    have hsearch := binarySearchLoop_no_candidate ts target hall (M.toNat + 2) M 0
      (by omega) (Or.inr hM)
    refine ⟨hsearch, ?_⟩
    unfold load_with_datetime_version
    rw [hsearch, if_pos (by norm_num)]

/-- Constant timestamp map of the C3 counterexample: versions 0 and 1 share
the same modification second. -/
def tsDupC3 : Int → Int := fun _ => 100

/-- C3 counterexample: with duplicate timestamps (two versions committed in
the same second) the exact-match branch returns the pivot immediately, so
`load_with_datetime(100)` over versions `{0 → 100s, 1 → 100s}` resolves
version 0 even though version 1 also has timestamp ≤ 100 — the resolved
version is not the greatest one. -/
theorem c3_counterexample :
    load_with_datetime_version tsDupC3 1 100 = 0 ∧
    tsDupC3 1 ≤ 100 ∧ (0 : Int) < 1 ∧ (1 : Int) ≤ 1 := by
  refine ⟨by decide, by decide, by decide, by decide⟩

/-- Timestamp map of the S5 scenario: versions 0, 1, 2 modified at 1000s,
2000s, 3000s. -/
def tsS5 : Int → Int := fun v => 1000 * (v + 1)

/-- Witness for C3 on the S5 scenario: `load_with_datetime(2500s)` resolves
version 1. -/
theorem c3_load_with_datetime_greatest_witness :
    ((∀ i j : Int, i < j → tsS5 i < tsS5 j) ∧ (0 : Int) ≤ 2 ∧ tsS5 0 ≤ 2500) ∧
    (0 ≤ load_with_datetime_version tsS5 2 2500 ∧
      load_with_datetime_version tsS5 2 2500 ≤ 2 ∧
      tsS5 (load_with_datetime_version tsS5 2 2500) ≤ 2500 ∧
      (∀ v : Int, load_with_datetime_version tsS5 2 2500 < v → v ≤ 2 →
        2500 < tsS5 v)) ∧
    load_with_datetime_version tsS5 2 2500 = 1 :=
  ⟨⟨fun i j h => by unfold tsS5; omega, by omega, by decide⟩,
    (c3_load_with_datetime_greatest tsS5 2 2500
      (fun i j h => by unfold tsS5; omega) (by omega)).1 (by decide),
    by decide⟩

end DeltaRs
